import Mathlib

/-!
# Verification of the rust-serialization-evaluation benchmark harness

Shallow embedding of `src/src/lib.rs`: the `Person`/`Document` data model,
the sample-data generator, the three codec adapter modules
(`rustc_and_cbor`, `serde_and_bincode`, `rustc_and_bincode`), and the
size-reporting and benchmark drivers.

Bytes are modelled as `Nat` values below 256, byte sequences as `List Nat`,
panics (`unwrap` on a failed codec result) as `none`, and the process-wide
random source as an explicit stream `Nat → Nat` giving the i-th draw.

The wire formats live in external crates, so they are modelled here from
the specification (section 2 and 4.2): a self-describing CBOR format
(RFC 7049 data items; structs as maps keyed by field name, in declaration
order, as the reflection-based encoder derives them) and one compact
fixed-layout binary format (bincode: u64 fields and u64 length markers as
8 bytes big-endian followed by raw payload bytes) shared, per the spec,
by both the serde-driven and the reflection-driven bincode adapters.
-/

set_option maxRecDepth 100000

namespace SerEval

/-- The `Person` record of the benchmark data model (lib.rs lines 14-19).
The u64 identifier is a `Nat`; well-formedness keeps it below 2^64. -/
structure Person where
  id : Nat
  name : String
  email : String
deriving DecidableEq, Repr

/-- The `Document` record of the benchmark data model (lib.rs lines 21-27).
`content` is the raw byte payload, each entry below 256 when well-formed. -/
structure Document where
  id : Nat
  name : String
  authors : List Person
  content : List Nat
deriving DecidableEq, Repr

/-- The byte sequence of a string: one byte per character.  The sample
strings are ASCII, so the UTF-8 bytes coincide with the character codes. -/
def strBytes (s : String) : List Nat :=
  s.data.map Char.toNat

/-- Rebuild a string from its byte sequence. -/
def bytesStr (bs : List Nat) : String :=
  ⟨bs.map Char.ofNat⟩

theorem strBytes_length (s : String) : (strBytes s).length = s.data.length := by
  simp [strBytes]

theorem bytesStr_strBytes (s : String) : bytesStr (strBytes s) = s := by
  have h : (s.data.map Char.toNat).map Char.ofNat = s.data := by
    rw [List.map_map]
    have : (fun c => Char.ofNat (Char.toNat c)) = (id : Char → Char) := by
      funext c
      simp [Char.ofNat_toNat]
    simp [Function.comp_def, Char.ofNat_toNat]
  simp only [bytesStr, strBytes, h]

/-- Well-formed string for serialization: its length fits in a u64 and
every character code fits in a single byte. -/
def strOk (s : String) : Prop :=
  s.data.length < 2 ^ 64 ∧ ∀ c ∈ s.data, c.toNat < 256

instance (s : String) : Decidable (strOk s) := by
  unfold strOk
  infer_instance

/-- Well-formed `Person`: the u64 field fits and both strings are byte-clean. -/
def PersonOk (p : Person) : Prop :=
  p.id < 2 ^ 64 ∧ strOk p.name ∧ strOk p.email

instance (p : Person) : Decidable (PersonOk p) := by
  unfold PersonOk
  infer_instance

/-- Well-formed `Document`: u64 fields and lengths fit, strings are
byte-clean, and each content entry is a byte. -/
def DocumentOk (d : Document) : Prop :=
  d.id < 2 ^ 64 ∧ strOk d.name ∧
    d.authors.length < 2 ^ 64 ∧ (∀ p ∈ d.authors, PersonOk p) ∧
    d.content.length < 2 ^ 64 ∧ ∀ b ∈ d.content, b < 256

instance (d : Document) : Decidable (DocumentOk d) := by
  unfold DocumentOk
  infer_instance

/-! ## Big-endian byte encoding of unsigned integers -/

/-- The `k`-byte big-endian encoding of `n` (low byte last). -/
def beBytes : Nat → Nat → List Nat
  | 0, _ => []
  | k + 1, n => beBytes k (n / 256) ++ [n % 256]

/-- Read a big-endian byte sequence back as a number. -/
def beVal (bs : List Nat) : Nat :=
  bs.foldl (fun a b => a * 256 + b) 0

theorem beBytes_length (k n : Nat) : (beBytes k n).length = k := by
  induction k generalizing n with
  | zero => rfl
  | succ k ih => simp [beBytes, ih]

theorem beBytes_lt (k n : Nat) : ∀ b ∈ beBytes k n, b < 256 := by
  induction k generalizing n with
  | zero => simp [beBytes]
  | succ k ih =>
    intro b hb
    simp only [beBytes, List.mem_append, List.mem_singleton] at hb
    rcases hb with hb | hb
    · exact ih _ b hb
    · omega

theorem beVal_append_last (xs : List Nat) (b : Nat) :
    beVal (xs ++ [b]) = beVal xs * 256 + b := by
  simp [beVal, List.foldl_append]

theorem beVal_beBytes (k n : Nat) (h : n < 256 ^ k) :
    beVal (beBytes k n) = n := by
  induction k generalizing n with
  | zero =>
    simp only [Nat.pow_zero, Nat.lt_one_iff] at h
    simp [beBytes, beVal, h]
  | succ k ih =>
    have hdiv : n / 256 < 256 ^ k := by
      rw [Nat.div_lt_iff_lt_mul (by omega)]
      calc n < 256 ^ (k + 1) := h
        _ = 256 ^ k * 256 := by ring
    rw [beBytes, beVal_append_last, ih _ hdiv]
    omega

/-- Split off the first `n` entries of a byte sequence, failing when the
input is too short (a read past the end of the buffer). -/
def takeN (n : Nat) (bs : List Nat) : Option (List Nat × List Nat) :=
  if bs.length < n then none else some (bs.take n, bs.drop n)

theorem takeN_append (n : Nat) (xs rest : List Nat) (h : xs.length = n) :
    takeN n (xs ++ rest) = some (xs, rest) := by
  subst h
  simp [takeN, List.take_left, List.drop_left]

/-- Read a big-endian u64. -/
def readU64 (bs : List Nat) : Option (Nat × List Nat) :=
  match takeN 8 bs with
  | some (w, rest) => some (beVal w, rest)
  | none => none

theorem readU64_append (n : Nat) (rest : List Nat) (h : n < 2 ^ 64) :
    readU64 (beBytes 8 n ++ rest) = some (n, rest) := by
  have hlen : (beBytes 8 n).length = 8 := beBytes_length 8 n
  have h8 : n < 256 ^ 8 := by
    calc n < 2 ^ 64 := h
      _ = 256 ^ 8 := by norm_num
  rw [readU64, takeN_append 8 _ rest hlen]
  simp [beVal_beBytes 8 n h8]

/-! ## The bincode wire format

Modelled from the spec: the compact fixed-layout binary format of section 2,
"one compact fixed-layout binary format driven by a generic serialization
framework" and "the same compact binary format driven by the legacy
reflection-based encoding trait instead".  The crate behind both adapters
writes u64 fields and u64 length markers as 8 bytes big-endian, strings as a
length marker followed by the raw bytes, sequences as a length marker
followed by the elements, and struct fields back to back in declaration
order with no field names. -/

/-- bincode encoding of a string: u64 byte length, then the bytes. -/
def bcStr (s : String) : List Nat :=
  beBytes 8 (strBytes s).length ++ strBytes s

/-- bincode encoding of a `Person`: id, name, email back to back. -/
def bcPerson (p : Person) : List Nat :=
  beBytes 8 p.id ++ bcStr p.name ++ bcStr p.email

/-- bincode encoding of a `Document`: id, name, author count and authors,
content byte count and the raw content bytes. -/
def bcDocument (d : Document) : List Nat :=
  beBytes 8 d.id ++ bcStr d.name ++ beBytes 8 d.authors.length ++
    (d.authors.map bcPerson).flatten ++ beBytes 8 d.content.length ++ d.content

/-- bincode string reader: u64 length, then that many bytes. -/
def readBcStr (bs : List Nat) : Option (String × List Nat) :=
  match readU64 bs with
  | some (n, rest) =>
    match takeN n rest with
    | some (w, r2) => some (bytesStr w, r2)
    | none => none
  | none => none

/-- bincode `Person` reader. -/
def readBcPerson (bs : List Nat) : Option (Person × List Nat) :=
  match readU64 bs with
  | some (i, r1) =>
    match readBcStr r1 with
    | some (nm, r2) =>
      match readBcStr r2 with
      | some (em, r3) => some (⟨i, nm, em⟩, r3)
      | none => none
    | none => none
  | none => none

/-- bincode reader for a counted sequence of `Person`. -/
def readBcPersons : Nat → List Nat → Option (List Person × List Nat)
  | 0, bs => some ([], bs)
  | k + 1, bs =>
    match readBcPerson bs with
    | some (p, rest) =>
      match readBcPersons k rest with
      | some (ps, r2) => some (p :: ps, r2)
      | none => none
    | none => none

/-- bincode `Document` reader: the exact inverse shape of `bcDocument`.
Trailing bytes beyond the document are ignored, as the crate reader
consumes only what it needs. -/
def readBcDocument (bs : List Nat) : Option (Document × List Nat) :=
  match readU64 bs with
  | some (i, r1) =>
    match readBcStr r1 with
    | some (nm, r2) =>
      match readU64 r2 with
      | some (na, r3) =>
        match readBcPersons na r3 with
        | some (ps, r4) =>
          match readU64 r4 with
          | some (nc, r5) =>
            match takeN nc r5 with
            | some (c, r6) => some (⟨i, nm, ps, c⟩, r6)
            | none => none
          | none => none
        | none => none
      | none => none
    | none => none
  | none => none

theorem readBcStr_append (s : String) (rest : List Nat) (h : strOk s) :
    readBcStr (bcStr s ++ rest) = some (s, rest) := by
  have hl : (strBytes s).length < 2 ^ 64 := by
    rw [strBytes_length]
    exact h.1
  simp only [readBcStr, bcStr, List.append_assoc, readU64_append _ _ hl,
    takeN_append, bytesStr_strBytes]

theorem readBcPerson_append (p : Person) (rest : List Nat) (h : PersonOk p) :
    readBcPerson (bcPerson p ++ rest) = some (p, rest) := by
  simp only [readBcPerson, bcPerson, List.append_assoc, readU64_append _ _ h.1,
    readBcStr_append _ _ h.2.1, readBcStr_append _ _ h.2.2]

theorem readBcPersons_append (ps : List Person) (rest : List Nat)
    (h : ∀ p ∈ ps, PersonOk p) :
    readBcPersons ps.length ((ps.map bcPerson).flatten ++ rest) = some (ps, rest) := by
  induction ps with
  | nil => simp [readBcPersons]
  | cons p ps ih =>
    have hp : PersonOk p := h p (List.mem_cons_self p ps)
    have hps : ∀ q ∈ ps, PersonOk q := fun q hq => h q (List.mem_cons_of_mem _ hq)
    simp only [List.map_cons, List.flatten_cons, List.length_cons, List.append_assoc,
      readBcPersons, readBcPerson_append _ _ hp, ih hps]

theorem readBcDocument_append (d : Document) (rest : List Nat) (h : DocumentOk d) :
    readBcDocument (bcDocument d ++ rest) = some (d, rest) := by
  obtain ⟨h1, h2, h3, h4, h5, h6⟩ := h
  simp only [readBcDocument, bcDocument, List.append_assoc, readU64_append _ _ h1,
    readBcStr_append _ _ h2, readU64_append _ _ h3, readBcPersons_append _ _ h4,
    readU64_append _ _ h5, takeN_append]

/-! ## The CBOR wire format

Modelled from the spec: the self-describing format of section 2, "one
binary/text self-describing format driven by a legacy reflection-based
encoding trait".  The crate behind the CBOR adapter writes RFC 7049 data
items in canonical (smallest-header) form: an item header carries a major
type in the top three bits and a length or value in the remaining five,
with 24/25/26/27 announcing 1/2/4/8 following big-endian bytes.  The
reflection-based encoder derives structs as maps keyed by the field names
in declaration order, strings as text items, sequences as arrays, and
unsigned integers (including the u8 content entries) as uint items. -/

/-- Header of a CBOR item: major type `mt`, value or length `n`,
in canonical smallest form. -/
def hdr (mt n : Nat) : List Nat :=
  if n < 24 then [mt * 32 + n]
  else if n < 256 then (mt * 32 + 24) :: beBytes 1 n
  else if n < 65536 then (mt * 32 + 25) :: beBytes 2 n
  else if n < 4294967296 then (mt * 32 + 26) :: beBytes 4 n
  else (mt * 32 + 27) :: beBytes 8 n

/-- Read a CBOR item header: major type, value and remaining bytes. -/
def readHdr (bs : List Nat) : Option (Nat × Nat × List Nat) :=
  match bs with
  | [] => none
  | b :: rest =>
    if b % 32 < 24 then some (b / 32, b % 32, rest)
    else if b % 32 = 24 then
      match takeN 1 rest with
      | some (w, r2) => some (b / 32, beVal w, r2)
      | none => none
    else if b % 32 = 25 then
      match takeN 2 rest with
      | some (w, r2) => some (b / 32, beVal w, r2)
      | none => none
    else if b % 32 = 26 then
      match takeN 4 rest with
      | some (w, r2) => some (b / 32, beVal w, r2)
      | none => none
    else if b % 32 = 27 then
      match takeN 8 rest with
      | some (w, r2) => some (b / 32, beVal w, r2)
      | none => none
    else none

theorem readHdr_hdr (mt n : Nat) (rest : List Nat) (_hmt : mt < 8) (hn : n < 2 ^ 64) :
    readHdr (hdr mt n ++ rest) = some (mt, n, rest) := by
  by_cases h24 : n < 24
  · have hb : (mt * 32 + n) % 32 = n := by omega
    have hb2 : (mt * 32 + n) / 32 = mt := by omega
    simp [hdr, h24, readHdr, hb, hb2]
  · by_cases h256 : n < 256
    · have hb : (mt * 32 + 24) % 32 = 24 := by omega
      have hb2 : (mt * 32 + 24) / 32 = mt := by omega
      have hv : beVal (beBytes 1 n) = n := beVal_beBytes 1 n (by omega)
      simp [hdr, h24, h256, readHdr, hb, hb2, takeN_append 1 _ rest (beBytes_length 1 n), hv]
    · by_cases h65536 : n < 65536
      · have hb : (mt * 32 + 25) % 32 = 25 := by omega
        have hb2 : (mt * 32 + 25) / 32 = mt := by omega
        have hv : beVal (beBytes 2 n) = n := beVal_beBytes 2 n (by omega)
        simp [hdr, h24, h256, h65536, readHdr, hb, hb2,
          takeN_append 2 _ rest (beBytes_length 2 n), hv]
      · by_cases h32 : n < 4294967296
        · have hb : (mt * 32 + 26) % 32 = 26 := by omega
          have hb2 : (mt * 32 + 26) / 32 = mt := by omega
          have hv : beVal (beBytes 4 n) = n := beVal_beBytes 4 n (by omega)
          simp [hdr, h24, h256, h65536, h32, readHdr, hb, hb2,
            takeN_append 4 _ rest (beBytes_length 4 n), hv]
        · have hb : (mt * 32 + 27) % 32 = 27 := by omega
          have hb2 : (mt * 32 + 27) / 32 = mt := by omega
          have hpow : (256 : Nat) ^ 8 = 2 ^ 64 := by norm_num
          have hv : beVal (beBytes 8 n) = n := beVal_beBytes 8 n (by omega)
          simp [hdr, h24, h256, h65536, h32, readHdr, hb, hb2,
            takeN_append 8 _ rest (beBytes_length 8 n), hv]

/-- CBOR encoding of an unsigned integer item. -/
def cborUint (n : Nat) : List Nat :=
  hdr 0 n

/-- CBOR encoding of a text item: header with byte length, then the bytes. -/
def cborTxt (s : String) : List Nat :=
  hdr 3 (strBytes s).length ++ strBytes s

/-- CBOR encoding of a `Person`: a map of its three named fields. -/
def cborPerson (p : Person) : List Nat :=
  hdr 5 3 ++ cborTxt "id" ++ cborUint p.id ++ cborTxt "name" ++ cborTxt p.name ++
    cborTxt "email" ++ cborTxt p.email

/-- CBOR encoding of a `Document`: a map of its four named fields, the
authors as an array of person maps, the content as an array of uint items. -/
def cborDocument (d : Document) : List Nat :=
  hdr 5 4 ++ cborTxt "id" ++ cborUint d.id ++ cborTxt "name" ++ cborTxt d.name ++
    cborTxt "authors" ++ hdr 4 d.authors.length ++ (d.authors.map cborPerson).flatten ++
    cborTxt "content" ++ hdr 4 d.content.length ++ (d.content.map cborUint).flatten

/-- Read a CBOR text item. -/
def readTxt (bs : List Nat) : Option (String × List Nat) :=
  match readHdr bs with
  | some (mt, n, rest) =>
    if mt = 3 then
      match takeN n rest with
      | some (w, r2) => some (bytesStr w, r2)
      | none => none
    else none
  | none => none

/-- Read a CBOR text item and require it to be the expected map key. -/
def readKey (k : String) (bs : List Nat) : Option (List Nat) :=
  match readTxt bs with
  | some (s, rest) => if s = k then some rest else none
  | none => none

/-- Read a CBOR unsigned integer item. -/
def readUint (bs : List Nat) : Option (Nat × List Nat) :=
  match readHdr bs with
  | some (mt, n, rest) => if mt = 0 then some (n, rest) else none
  | none => none

/-- Read a CBOR unsigned integer item that must fit in a u8, as the
decoder does for the content entries. -/
def readU8 (bs : List Nat) : Option (Nat × List Nat) :=
  match readUint bs with
  | some (n, rest) => if n < 256 then some (n, rest) else none
  | none => none

/-- Read a CBOR person map with its three expected keys. -/
def readPersonItem (bs : List Nat) : Option (Person × List Nat) :=
  match readHdr bs with
  | some (mt, cnt, r0) =>
    if mt = 5 ∧ cnt = 3 then
      match readKey "id" r0 with
      | some r1 =>
        match readUint r1 with
        | some (i, r2) =>
          match readKey "name" r2 with
          | some r3 =>
            match readTxt r3 with
            | some (nm, r4) =>
              match readKey "email" r4 with
              | some r5 =>
                match readTxt r5 with
                | some (em, r6) => some (⟨i, nm, em⟩, r6)
                | none => none
              | none => none
            | none => none
          | none => none
        | none => none
      | none => none
    else none
  | none => none

/-- Read a counted CBOR array of person maps. -/
def readPersonItems : Nat → List Nat → Option (List Person × List Nat)
  | 0, bs => some ([], bs)
  | k + 1, bs =>
    match readPersonItem bs with
    | some (p, rest) =>
      match readPersonItems k rest with
      | some (ps, r2) => some (p :: ps, r2)
      | none => none
    | none => none

/-- Read a counted CBOR array of u8 uint items. -/
def readU8Items : Nat → List Nat → Option (List Nat × List Nat)
  | 0, bs => some ([], bs)
  | k + 1, bs =>
    match readU8 bs with
    | some (b, rest) =>
      match readU8Items k rest with
      | some (l, r2) => some (b :: l, r2)
      | none => none
    | none => none

/-- Read a CBOR document map with its four expected keys. -/
def readDocumentItem (bs : List Nat) : Option (Document × List Nat) :=
  match readHdr bs with
  | some (mt, cnt, r0) =>
    if mt = 5 ∧ cnt = 4 then
      match readKey "id" r0 with
      | some r1 =>
        match readUint r1 with
        | some (i, r2) =>
          match readKey "name" r2 with
          | some r3 =>
            match readTxt r3 with
            | some (nm, r4) =>
              match readKey "authors" r4 with
              | some r5 =>
                match readHdr r5 with
                | some (amt, na, r6) =>
                  if amt = 4 then
                    match readPersonItems na r6 with
                    | some (ps, r7) =>
                      match readKey "content" r7 with
                      | some r8 =>
                        match readHdr r8 with
                        | some (cmt, nc, r9) =>
                          if cmt = 4 then
                            match readU8Items nc r9 with
                            | some (c, r10) => some (⟨i, nm, ps, c⟩, r10)
                            | none => none
                          else none
                        | none => none
                      | none => none
                    | none => none
                  else none
                | none => none
              | none => none
            | none => none
          | none => none
        | none => none
      | none => none
    else none
  | none => none

theorem readTxt_append (s : String) (rest : List Nat) (h : strOk s) :
    readTxt (cborTxt s ++ rest) = some (s, rest) := by
  have hl : (strBytes s).length < 2 ^ 64 := by
    rw [strBytes_length]
    exact h.1
  simp only [readTxt, cborTxt, List.append_assoc,
    readHdr_hdr 3 _ _ (by omega) hl, takeN_append, bytesStr_strBytes]
  simp

theorem readKey_append (k : String) (rest : List Nat) (h : strOk k) :
    readKey k (cborTxt k ++ rest) = some rest := by
  simp [readKey, readTxt_append _ _ h]

theorem readUint_append (n : Nat) (rest : List Nat) (h : n < 2 ^ 64) :
    readUint (cborUint n ++ rest) = some (n, rest) := by
  simp [readUint, cborUint, readHdr_hdr 0 _ _ (by omega) h]

theorem readU8_append (b : Nat) (rest : List Nat) (hb : b < 256) :
    readU8 (cborUint b ++ rest) = some (b, rest) := by
  simp [readU8, readUint_append _ _ (by omega : b < 2 ^ 64), hb]

theorem strOk_id : strOk "id" := by decide

theorem strOk_name : strOk "name" := by decide

theorem strOk_email : strOk "email" := by decide

theorem strOk_authors : strOk "authors" := by decide

theorem strOk_content : strOk "content" := by decide

theorem readPersonItem_append (p : Person) (rest : List Nat) (h : PersonOk p) :
    readPersonItem (cborPerson p ++ rest) = some (p, rest) := by
  simp only [readPersonItem, cborPerson, List.append_assoc,
    readHdr_hdr 5 3 _ (by omega) (by omega),
    readKey_append _ _ strOk_id, readUint_append _ _ h.1,
    readKey_append _ _ strOk_name, readTxt_append _ _ h.2.1,
    readKey_append _ _ strOk_email, readTxt_append _ _ h.2.2]
  simp

theorem readPersonItems_append (ps : List Person) (rest : List Nat)
    (h : ∀ p ∈ ps, PersonOk p) :
    readPersonItems ps.length ((ps.map cborPerson).flatten ++ rest) = some (ps, rest) := by
  induction ps with
  | nil => simp [readPersonItems]
  | cons p ps ih =>
    have hp : PersonOk p := h p (List.mem_cons_self p ps)
    have hps : ∀ q ∈ ps, PersonOk q := fun q hq => h q (List.mem_cons_of_mem _ hq)
    simp only [List.map_cons, List.flatten_cons, List.length_cons, List.append_assoc,
      readPersonItems, readPersonItem_append _ _ hp, ih hps]

theorem readU8Items_append (l : List Nat) (rest : List Nat)
    (h : ∀ b ∈ l, b < 256) :
    readU8Items l.length ((l.map cborUint).flatten ++ rest) = some (l, rest) := by
  induction l with
  | nil => simp [readU8Items]
  | cons b l ih =>
    have hb : b < 256 := h b (List.mem_cons_self b l)
    have hl : ∀ x ∈ l, x < 256 := fun x hx => h x (List.mem_cons_of_mem _ hx)
    simp only [List.map_cons, List.flatten_cons, List.length_cons, List.append_assoc,
      readU8Items, readU8_append _ _ hb, ih hl]

theorem readDocumentItem_append (d : Document) (rest : List Nat) (h : DocumentOk d) :
    readDocumentItem (cborDocument d ++ rest) = some (d, rest) := by
  obtain ⟨h1, h2, h3, h4, h5, h6⟩ := h
  simp only [readDocumentItem, cborDocument, List.append_assoc,
    readHdr_hdr 5 4 _ (by omega) (by omega),
    readKey_append _ _ strOk_id, readUint_append _ _ h1,
    readKey_append _ _ strOk_name, readTxt_append _ _ h2,
    readKey_append _ _ strOk_authors, readHdr_hdr 4 _ _ (by omega) h3,
    readPersonItems_append _ _ h4,
    readKey_append _ _ strOk_content, readHdr_hdr 4 _ _ (by omega) h5,
    readU8Items_append _ _ h6]
  simp

/-! ## Codec entry points and the three adapter modules

The `Except` level models the Result-returning entry points of the codec
crates; the adapter functions unwrap them, so a codec error surfaces as
`none` (the panic of `unwrap`), never as a recoverable error value. -/

/-- Modelled from the spec: the CBOR encoder entry point writes the single
given value as one top-level data item into memory; for this data type the
codec reports no internal error, so the result is always `ok`. -/
def cborEncodeR (d : Document) : Except Unit (List Nat) :=
  Except.ok (cborDocument d)

/-- Modelled from the spec: the CBOR decoder iterates top-level items and
the caller takes the first one; an empty or malformed input yields an
error (an exhausted item iterator or a decode failure).  Trailing bytes
after the first item are ignored. -/
def cborDecodeR (bs : List Nat) : Except Unit Document :=
  match readDocumentItem bs with
  | some (d, _) => Except.ok d
  | none => Except.error ()

/-- Modelled from the spec: the serde-driven bincode serialize entry point;
with an unbounded size limit and in-memory writing it never reports an
internal error for this data type. -/
def bincodeSerdeSerializeR (d : Document) : Except Unit (List Nat) :=
  Except.ok (bcDocument d)

/-- Modelled from the spec: the serde-driven bincode deserialize entry
point; it consumes exactly the bytes of one document and ignores trailing
bytes. -/
def bincodeSerdeDeserializeR (bs : List Nat) : Except Unit Document :=
  match readBcDocument bs with
  | some (d, _) => Except.ok d
  | none => Except.error ()

/-- Modelled from the spec: the reflection-driven bincode encode entry
point; the spec (section 2) has it drive the same compact binary format,
so it writes the same bytes as the serde-driven one. -/
def bincodeRustcEncodeR (d : Document) : Except Unit (List Nat) :=
  Except.ok (bcDocument d)

/-- Modelled from the spec: the reflection-driven bincode decode entry
point, reading the same wire format. -/
def bincodeRustcDecodeR (bs : List Nat) : Except Unit Document :=
  match readBcDocument bs with
  | some (d, _) => Except.ok d
  | none => Except.error ()

namespace rustc_and_cbor

/-- lib.rs 61-65: encode into memory and unwrap; the bytes of the single
encoded item. -/
def encode (d : Document) : List Nat :=
  cborDocument d

/-- lib.rs 67-70: take the first decoded item and unwrap twice; `none`
models the panic when the iterator is empty or the item is malformed. -/
def decode (bs : List Nat) : Option Document :=
  (cborDecodeR bs).toOption

end rustc_and_cbor

namespace serde_and_bincode

/-- lib.rs 78-80: `serde::serialize(&v, SizeLimit::Infinite).unwrap()`. -/
def encode (d : Document) : List Nat :=
  bcDocument d

/-- lib.rs 82-84: `serde::deserialize(bytes).unwrap()`; `none` models the
panic on a codec error. -/
def decode (bs : List Nat) : Option Document :=
  (bincodeSerdeDeserializeR bs).toOption

end serde_and_bincode

namespace rustc_and_bincode

/-- lib.rs 92-94: `rustc_serialize::encode(&v, SizeLimit::Infinite).unwrap()`. -/
def encode (d : Document) : List Nat :=
  bcDocument d

/-- lib.rs 96-98: `rustc_serialize::decode(bytes).unwrap()`; `none` models
the panic on a codec error. -/
def decode (bs : List Nat) : Option Document :=
  (bincodeRustcDecodeR bs).toOption

end rustc_and_bincode

/-! ## Sample data (lib.rs 29-55) -/

/-- The fixed first author (lib.rs 32-36). -/
def alice : Person :=
  ⟨1, "Alice", "alice@example.com"⟩

/-- The fixed second author (lib.rs 38-42). -/
def bob : Person :=
  ⟨2, "Bob", "bob@example.com"⟩

/-- lib.rs 29-55: build the sample document.  The process-wide random
source is the explicit stream `rng`; position `i` of the content buffer
receives the i-th draw, reduced to a byte as `gen::<u8>()` yields. -/
def make_sample_data (size : Nat) (rng : Nat → Nat) : Document :=
  { id := 829472904
    name := "stuff.txt"
    authors := [alice, bob]
    content := (List.range size).map fun i => rng i % 256 }

/-- A concrete all-zero random source, for closed instances. -/
def rng0 : Nat → Nat :=
  fun _ => 0

/-- The small sample document: requested content length 0. -/
def sampleSmall : Document :=
  make_sample_data 0 rng0

/-! ## Drivers (the test module, lib.rs 101-239) -/

/-- The adapter selector: the `Option` enum of the test module
(lib.rs 107-111), named apart from the core `Option` type. -/
inductive BenchOption where
  | rustcAndCbor
  | serdeAndBincode
  | rustcAndBincode
deriving DecidableEq, Repr

/-- One call into a codec adapter, recorded to trace which operations a
driver performs and in what order. -/
inductive CodecOp where
  | enc (o : BenchOption)
  | dec (o : BenchOption)
deriving DecidableEq, Repr

/-- Dispatch `encode` over the adapter selector. -/
def adapterEncode : BenchOption → Document → List Nat
  | .rustcAndCbor, d => rustc_and_cbor.encode d
  | .serdeAndBincode, d => serde_and_bincode.encode d
  | .rustcAndBincode, d => rustc_and_bincode.encode d

/-- Dispatch `decode` over the adapter selector. -/
def adapterDecode : BenchOption → List Nat → Option Document
  | .rustcAndCbor, bs => rustc_and_cbor.decode bs
  | .serdeAndBincode, bs => serde_and_bincode.decode bs
  | .rustcAndBincode, bs => rustc_and_bincode.decode bs

/-- An adapter encode call paired with the one operation it performs. -/
def tracedEncode (o : BenchOption) (d : Document) : List Nat × List CodecOp :=
  (adapterEncode o d, [CodecOp.enc o])

/-- An adapter decode call paired with the one operation it performs. -/
def tracedDecode (o : BenchOption) (bs : List Nat) : Option Document × List CodecOp :=
  (adapterDecode o bs, [CodecOp.dec o])

/-- lib.rs 123-139: report the encoded sizes of the two sample documents
for one adapter.  The model returns the two printed byte lengths and the
trace of codec operations performed, in order. -/
def run_sizes (option : BenchOption) (small big : Document) : List Nat × List CodecOp :=
  match option with
  | .rustcAndCbor =>
    let s := tracedEncode .rustcAndCbor small
    let b := tracedEncode .rustcAndCbor big
    ([s.1.length, b.1.length], s.2 ++ b.2)
  | .serdeAndBincode =>
    let s := tracedEncode .serdeAndBincode small
    let b := tracedEncode .serdeAndBincode big
    ([s.1.length, b.1.length], s.2 ++ b.2)
  | .rustcAndBincode =>
    let s := tracedEncode .rustcAndBincode small
    let b := tracedEncode .rustcAndBincode big
    ([s.1.length, b.1.length], s.2 ++ b.2)

/-- lib.rs 141-150: the sizes test builds both samples once, then runs
`run_sizes` for each adapter in turn on those same two documents. -/
def sizes (rng rngBig : Nat → Nat) : List Nat × List CodecOp :=
  let small := make_sample_data 0 rng
  let big := make_sample_data (1024 * 1024) rngBig
  let r1 := run_sizes .rustcAndCbor small big
  let r2 := run_sizes .serdeAndBincode small big
  let r3 := run_sizes .rustcAndBincode small big
  (r1.1 ++ r2.1 ++ r3.1, r1.2 ++ r2.2 ++ r3.2)

/-- The observable shape of one decode benchmark: the codec operations of
the untimed setup, and for each iteration index the value computed inside
the timed closure together with the codec operations it performs. -/
structure BenchRun where
  setupOps : List CodecOp
  iter : Nat → Option Document × List CodecOp

/-- lib.rs 162-178: build the sample document once, encode it once outside
the timed loop, then hand the bencher a closure that decodes the shared
byte sequence on every iteration. -/
def bench_decode (option : BenchOption) (size : Nat) (rng : Nat → Nat) : BenchRun :=
  let document := make_sample_data size rng
  match option with
  | .rustcAndCbor =>
    let e := tracedEncode .rustcAndCbor document
    { setupOps := e.2, iter := fun _ => tracedDecode .rustcAndCbor e.1 }
  | .serdeAndBincode =>
    let e := tracedEncode .serdeAndBincode document
    { setupOps := e.2, iter := fun _ => tracedDecode .serdeAndBincode e.1 }
  | .rustcAndBincode =>
    let e := tracedEncode .rustcAndBincode document
    { setupOps := e.2, iter := fun _ => tracedDecode .rustcAndBincode e.1 }

/-! ## Supporting lemmas -/

theorem make_sample_data_ok (size : Nat) (rng : Nat → Nat) (h : size < 2 ^ 64) :
    DocumentOk (make_sample_data size rng) := by
  unfold DocumentOk
  simp only [make_sample_data]
  refine ⟨by norm_num, by decide, by decide, by decide, ?hc, ?hm⟩
  · simpa using h
  · intro b hb
    simp only [List.mem_map] at hb
    obtain ⟨i, _, rfl⟩ := hb
    exact Nat.mod_lt _ (by norm_num)

theorem cbor_decode_encode (d : Document) (h : DocumentOk d) :
    rustc_and_cbor.decode (rustc_and_cbor.encode d) = some d := by
  have h0 := readDocumentItem_append d [] h
  rw [List.append_nil] at h0
  simp [rustc_and_cbor.decode, rustc_and_cbor.encode, cborDecodeR, h0, Except.toOption]

theorem bc_read_encode (d : Document) (h : DocumentOk d) :
    readBcDocument (bcDocument d) = some (d, []) := by
  have h0 := readBcDocument_append d [] h
  rwa [List.append_nil] at h0

theorem serde_bc_decode_encode (d : Document) (h : DocumentOk d) :
    serde_and_bincode.decode (serde_and_bincode.encode d) = some d := by
  simp [serde_and_bincode.decode, serde_and_bincode.encode, bincodeSerdeDeserializeR,
    bc_read_encode d h, Except.toOption]

theorem rustc_bc_decode_encode (d : Document) (h : DocumentOk d) :
    rustc_and_bincode.decode (rustc_and_bincode.encode d) = some d := by
  simp [rustc_and_bincode.decode, rustc_and_bincode.encode, bincodeRustcDecodeR,
    bc_read_encode d h, Except.toOption]

theorem hdr_length_pos (mt n : Nat) : 1 ≤ (hdr mt n).length := by
  unfold hdr
  split
  · simp
  · split
    · simp [beBytes_length]
    · split
      · simp [beBytes_length]
      · split
        · simp [beBytes_length]
        · simp [beBytes_length]

theorem flatten_map_cborUint_length_ge (l : List Nat) :
    l.length ≤ ((l.map cborUint).flatten).length := by
  induction l with
  | nil => simp
  | cons b l ih =>
    have hb := hdr_length_pos 0 b
    have hcu : (cborUint b).length = (hdr 0 b).length := rfl
    simp only [List.map_cons, List.flatten_cons, List.length_append, List.length_cons]
    omega

theorem cborDocument_length_lt (rng rngBig : Nat → Nat) :
    (cborDocument (make_sample_data 0 rng)).length <
      (cborDocument (make_sample_data (1024 * 1024) rngBig)).length := by
  have h1 : (hdr 4 (0 : Nat)).length = 1 := by decide
  have h2 : (hdr 4 (1048576 : Nat)).length = 5 := by decide
  have h3 := flatten_map_cborUint_length_ge ((List.range (1024 * 1024)).map fun i => rngBig i % 256)
  simp only [List.length_map, List.length_range] at h3
  simp [cborDocument, make_sample_data, List.length_append, h1, h2]
  omega

theorem bcDocument_length_lt (rng rngBig : Nat → Nat) :
    (bcDocument (make_sample_data 0 rng)).length <
      (bcDocument (make_sample_data (1024 * 1024) rngBig)).length := by
  simp [bcDocument, make_sample_data, List.length_append, beBytes_length]

theorem beBytes_cons (k n : Nat) :
    beBytes (k + 1) n = (n / 256 ^ k % 256) :: beBytes k (n % 256 ^ k) := by
  induction k generalizing n with
  | zero => simp [beBytes]
  | succ k ih =>
    have hpow : (256 : Nat) ^ (k + 1) = 256 * 256 ^ k := by
      rw [pow_succ, Nat.mul_comm]
    have ha : n / 256 % 256 ^ k = n % 256 ^ (k + 1) / 256 := by
      rw [hpow, Nat.mod_mul_right_div_self]
    have hb : n % 256 = n % 256 ^ (k + 1) % 256 := by
      rw [Nat.mod_mod_of_dvd n (by rw [hpow]; exact ⟨256 ^ k, rfl⟩)]
    have hc : n / 256 / 256 ^ k = n / 256 ^ (k + 1) := by
      rw [Nat.div_div_eq_div_mul, ← hpow]
    rw [show beBytes (k + 1 + 1) n = beBytes (k + 1) (n / 256) ++ [n % 256] from rfl, ih]
    simp only [List.cons_append]
    rw [hc, ha, hb]
    rfl

theorem beBytes8_cons (n : Nat) :
    beBytes 8 n = (n / 256 ^ 7 % 256) :: beBytes 7 (n % 256 ^ 7) :=
  beBytes_cons 7 n

theorem beVal_foldl (t : List Nat) : ∀ a : Nat,
    t.foldl (fun a b => a * 256 + b) a = a * 256 ^ t.length + beVal t := by
  induction t with
  | nil =>
    intro a
    simp [beVal]
  | cons x t ih =>
    intro a
    have hx : beVal (x :: t) = x * 256 ^ t.length + beVal t := by
      have h0 : beVal (x :: t) = t.foldl (fun a b => a * 256 + b) (0 * 256 + x) := rfl
      rw [h0, ih (0 * 256 + x)]
      ring
    simp only [List.foldl_cons, List.length_cons]
    rw [ih (a * 256 + x), hx]
    ring

theorem beVal_cons (b : Nat) (t : List Nat) :
    beVal (b :: t) = b * 256 ^ t.length + beVal t := by
  have h0 : beVal (b :: t) = t.foldl (fun a b => a * 256 + b) (0 * 256 + b) := rfl
  rw [h0, beVal_foldl t (0 * 256 + b)]
  ring

theorem readHdr_mt (b : Nat) (tail : List Nat) (mt cnt : Nat) (rest : List Nat)
    (h : readHdr (b :: tail) = some (mt, cnt, rest)) : mt = b / 32 := by
  unfold readHdr at h
  repeat' split at h
  all_goals simp_all

theorem readDocumentItem_first (b : Nat) (tail : List Nat) (hb : b / 32 ≠ 5) :
    readDocumentItem (b :: tail) = none := by
  unfold readDocumentItem
  cases hh : readHdr (b :: tail) with
  | none => rfl
  | some v =>
    obtain ⟨mt, cnt, rest⟩ := v
    have hmt := readHdr_mt b tail mt cnt rest hh
    subst hmt
    simp [hb]

theorem cbor_decode_bc_none (d : Document) (hid : d.id < 160 * 2 ^ 56) :
    rustc_and_cbor.decode (bcDocument d) = none := by
  have e1 : (256 : Nat) ^ 7 = 72057594037927936 := by norm_num
  have e2 : (2 : Nat) ^ 56 = 72057594037927936 := by norm_num
  have hb : d.id / 256 ^ 7 % 256 / 32 ≠ 5 := by
    rw [e1]
    rw [show (160 : Nat) * 2 ^ 56 = 11529215046068469760 from by norm_num] at hid
    omega
  have hcons : bcDocument d = (d.id / 256 ^ 7 % 256) ::
      (beBytes 7 (d.id % 256 ^ 7) ++ bcStr d.name ++ beBytes 8 d.authors.length ++
        (d.authors.map bcPerson).flatten ++ beBytes 8 d.content.length ++ d.content) := by
    rw [bcDocument, beBytes8_cons]
    simp [List.cons_append, List.append_assoc]
  rw [rustc_and_cbor.decode, cborDecodeR, hcons, readDocumentItem_first _ _ hb]
  rfl

theorem serde_decode_some (bs : List Nat) (d : Document)
    (h : serde_and_bincode.decode bs = some d) :
    ∃ r, readBcDocument bs = some (d, r) := by
  unfold serde_and_bincode.decode bincodeSerdeDeserializeR at h
  cases hR : readBcDocument bs with
  | none =>
    rw [hR] at h
    exact absurd h (by simp [Except.toOption])
  | some v =>
    obtain ⟨d2, r⟩ := v
    rw [hR] at h
    simp [Except.toOption] at h
    refine ⟨r, ?hq⟩
    rw [h]

theorem readBcDocument_id (bs : List Nat) (d : Document) (rest : List Nat)
    (h : readBcDocument bs = some (d, rest)) :
    ∃ r1, readU64 bs = some (d.id, r1) := by
  unfold readBcDocument at h
  repeat' split at h
  all_goals
    first
    | exact Option.noConfusion h
    | (simp only [Option.some.injEq, Prod.mk.injEq] at h
       obtain ⟨hd, -⟩ := h
       rw [← hd]
       exact ⟨_, by assumption⟩)

theorem readU64_head_ge (b : Nat) (t : List Nat) (hlen : 7 ≤ t.length)
    (i : Nat) (r : List Nat) (h : readU64 (b :: t) = some (i, r)) :
    b * 2 ^ 56 ≤ i := by
  have hl : ¬ (b :: t).length < 8 := by
    simp only [List.length_cons]
    omega
  unfold readU64 takeN at h
  rw [if_neg hl] at h
  simp only [Option.some.injEq, Prod.mk.injEq] at h
  obtain ⟨hi, _⟩ := h
  have htake : (b :: t).take 8 = b :: t.take 7 := rfl
  have hlen7 : (t.take 7).length = 7 := by
    rw [List.length_take]
    omega
  rw [htake, beVal_cons, hlen7] at hi
  rw [show (256 : Nat) ^ 7 = 72057594037927936 from by norm_num] at hi
  rw [show (2 : Nat) ^ 56 = 72057594037927936 from by norm_num]
  omega

theorem bc_decode_cbor_ne (d : Document) (hid : d.id < 160 * 2 ^ 56) :
    serde_and_bincode.decode (rustc_and_cbor.encode d) ≠ some d := by
  intro hcontra
  obtain ⟨r, hR⟩ := serde_decode_some _ _ hcontra
  obtain ⟨r1, hU⟩ := readBcDocument_id _ _ _ hR
  have h1 : (cborTxt "id").length = 3 := by decide
  have h2 : (cborTxt "name").length = 5 := by decide
  have h54 : hdr 5 4 = [164] := by decide
  obtain ⟨tail, htail, hlen⟩ :
      ∃ tail, rustc_and_cbor.encode d = 164 :: tail ∧ 7 ≤ tail.length := by
    refine ⟨cborTxt "id" ++ cborUint d.id ++ cborTxt "name" ++ cborTxt d.name ++
      cborTxt "authors" ++ hdr 4 d.authors.length ++ (d.authors.map cborPerson).flatten ++
      cborTxt "content" ++ hdr 4 d.content.length ++ (d.content.map cborUint).flatten,
      ?ha, ?hb⟩
    · rw [rustc_and_cbor.encode, cborDocument, h54]
      simp [List.cons_append, List.append_assoc]
    · simp [List.length_append, h1, h2]
      omega
  rw [htail] at hU
  have hge := readU64_head_ge 164 tail hlen _ _ hU
  rw [show (164 : Nat) * 2 ^ 56 = 11817445422220181504 from by norm_num] at hge
  rw [show (160 : Nat) * 2 ^ 56 = 11529215046068469760 from by norm_num] at hid
  omega

theorem rustc_bc_decode_cbor_ne (d : Document) (hid : d.id < 160 * 2 ^ 56) :
    rustc_and_bincode.decode (rustc_and_cbor.encode d) ≠ some d := by
  have heq : rustc_and_bincode.decode (rustc_and_cbor.encode d) =
      serde_and_bincode.decode (rustc_and_cbor.encode d) := rfl
  rw [heq]
  exact bc_decode_cbor_ne d hid

/-! ## Claim theorems -/

/-- Claim C1: for each of the three adapters and every well-formed document,
decoding the bytes produced by that same adapter's encode yields the
original document back: identifier, name, author list and content agree
byte for byte. -/
theorem claim_c1_round_trip (d : Document) (h : DocumentOk d) :
    rustc_and_cbor.decode (rustc_and_cbor.encode d) = some d ∧
      serde_and_bincode.decode (serde_and_bincode.encode d) = some d ∧
      rustc_and_bincode.decode (rustc_and_bincode.encode d) = some d :=
  ⟨cbor_decode_encode d h, serde_bc_decode_encode d h, rustc_bc_decode_encode d h⟩

/-- Witness for C1 at the concrete small sample document. -/
theorem claim_c1_round_trip_witness :
    DocumentOk sampleSmall ∧
      (rustc_and_cbor.decode (rustc_and_cbor.encode sampleSmall) = some sampleSmall ∧
        serde_and_bincode.decode (serde_and_bincode.encode sampleSmall) = some sampleSmall ∧
        rustc_and_bincode.decode (rustc_and_bincode.encode sampleSmall) = some sampleSmall) :=
  ⟨by decide, claim_c1_round_trip sampleSmall (by decide)⟩

/-- Claim C2: for every requested content length, `make_sample_data` returns
the document with id 829472904, name stuff.txt, exactly the two fixed
authors Alice and Bob in that order, and a content buffer of exactly the
requested length whose i-th byte is the i-th draw of the random source
reduced to a byte. -/
theorem claim_c2_make_sample_data (size : Nat) (rng : Nat → Nat) :
    (make_sample_data size rng).id = 829472904 ∧
      (make_sample_data size rng).name = "stuff.txt" ∧
      (make_sample_data size rng).authors =
        [⟨1, "Alice", "alice@example.com"⟩, ⟨2, "Bob", "bob@example.com"⟩] ∧
      (make_sample_data size rng).content.length = size ∧
      ∀ i : Nat, (make_sample_data size rng).content[i]? =
        if i < size then some (rng i % 256) else none := by
  refine ⟨rfl, rfl, rfl, by simp [make_sample_data], fun i => ?hi⟩
  by_cases hlt : i < size
  · simp [make_sample_data, List.getElem?_range, hlt]
  · simp [make_sample_data, List.getElem?_range, hlt]
    omega

/-- Claim C3: for every adapter, encoding the empty-content sample document
produces strictly fewer bytes than encoding the 1 MiB-content sample
document, the two documents agreeing on every other field. -/
theorem claim_c3_encoded_sizes (rng rngBig : Nat → Nat) :
    (rustc_and_cbor.encode (make_sample_data 0 rng)).length <
        (rustc_and_cbor.encode (make_sample_data (1024 * 1024) rngBig)).length ∧
      (serde_and_bincode.encode (make_sample_data 0 rng)).length <
        (serde_and_bincode.encode (make_sample_data (1024 * 1024) rngBig)).length ∧
      (rustc_and_bincode.encode (make_sample_data 0 rng)).length <
        (rustc_and_bincode.encode (make_sample_data (1024 * 1024) rngBig)).length :=
  ⟨cborDocument_length_lt rng rngBig, bcDocument_length_lt rng rngBig,
    bcDocument_length_lt rng rngBig⟩

/-- Claim C4: for each adapter and both size variants (content length 0 and
content length 1048576), a same-adapter round trip preserves the content
length. -/
theorem claim_c4_content_length (rng rngBig : Nat → Nat) (o : BenchOption) :
    (adapterDecode o (adapterEncode o (make_sample_data 0 rng))).map
        (fun d => d.content.length) = some 0 ∧
      (adapterDecode o (adapterEncode o (make_sample_data (1024 * 1024) rngBig))).map
        (fun d => d.content.length) = some (1024 * 1024) := by
  have h0 : DocumentOk (make_sample_data 0 rng) :=
    make_sample_data_ok 0 rng (by norm_num)
  have hb : DocumentOk (make_sample_data (1024 * 1024) rngBig) :=
    make_sample_data_ok (1024 * 1024) rngBig (by norm_num)
  have len0 : (make_sample_data 0 rng).content.length = 0 := by
    simp [make_sample_data]
  have lenB : (make_sample_data (1024 * 1024) rngBig).content.length = 1024 * 1024 := by
    simp [make_sample_data]
  cases o with
  | rustcAndCbor =>
    simp [adapterDecode, adapterEncode, cbor_decode_encode _ h0,
      cbor_decode_encode _ hb, len0, lenB]
  | serdeAndBincode =>
    simp [adapterDecode, adapterEncode, serde_bc_decode_encode _ h0,
      serde_bc_decode_encode _ hb, len0, lenB]
  | rustcAndBincode =>
    simp [adapterDecode, adapterEncode, rustc_bc_decode_encode _ h0,
      rustc_bc_decode_encode _ hb, len0, lenB]

/-- Claim C5: adapter operations unwrap the codec results directly: encode
unwraps a codec result that is `ok` on every document (the in-memory
encoder reports no internal error for this data type), and decode is
exactly the codec result with its error collapsed to the panic `none`; no
recoverable error value is ever returned to the caller. -/
theorem claim_c5_unwrap_semantics :
    (∀ d, cborEncodeR d = Except.ok (rustc_and_cbor.encode d)) ∧
      (∀ bs, rustc_and_cbor.decode bs = (cborDecodeR bs).toOption) ∧
      (∀ d, bincodeSerdeSerializeR d = Except.ok (serde_and_bincode.encode d)) ∧
      (∀ bs, serde_and_bincode.decode bs = (bincodeSerdeDeserializeR bs).toOption) ∧
      (∀ d, bincodeRustcEncodeR d = Except.ok (rustc_and_bincode.encode d)) ∧
      (∀ bs, rustc_and_bincode.decode bs = (bincodeRustcDecodeR bs).toOption) :=
  ⟨fun _ => rfl, fun _ => rfl, fun _ => rfl, fun _ => rfl, fun _ => rfl, fun _ => rfl⟩

/-- Claim C6 counterexample: the two bincode adapters share the wire format,
so feeding the bytes of the serde-driven encode of the small sample
document into the reflection-driven decode silently returns a value equal
to the original document, against the claim that no cross-adapter pairing
ever does so. -/
theorem claim_c6_counterexample :
    rustc_and_bincode.decode (serde_and_bincode.encode sampleSmall) = some sampleSmall := by
  decide

/-- Claim C6 amended: cross-adapter decoding never silently reproduces the
document between the CBOR adapter and either bincode adapter: for every
well-formed document whose u64 identifier is below 160 * 2^56 (its top
byte below the CBOR map-header range; every identifier the program
constructs satisfies this, in particular 829472904), the CBOR decode of
bincode-encoded bytes crashes, and the bincode decode of CBOR-encoded
bytes never yields a value equal to the original document.  The two
bincode adapters, however, share one wire format, so between them a
cross-adapter decode silently reproduces every well-formed document. -/
theorem claim_c6_amended (d : Document) (h : DocumentOk d)
    (hid : d.id < 160 * 2 ^ 56) :
    rustc_and_bincode.decode (serde_and_bincode.encode d) = some d ∧
      serde_and_bincode.decode (rustc_and_bincode.encode d) = some d ∧
      rustc_and_cbor.decode (serde_and_bincode.encode d) = none ∧
      rustc_and_cbor.decode (rustc_and_bincode.encode d) = none ∧
      serde_and_bincode.decode (rustc_and_cbor.encode d) ≠ some d ∧
      rustc_and_bincode.decode (rustc_and_cbor.encode d) ≠ some d := by
  refine ⟨?hm, ?hn, cbor_decode_bc_none d hid, cbor_decode_bc_none d hid,
    bc_decode_cbor_ne d hid, rustc_bc_decode_cbor_ne d hid⟩
  · simp [rustc_and_bincode.decode, serde_and_bincode.encode, bincodeRustcDecodeR,
      bc_read_encode d h, Except.toOption]
  · simp [serde_and_bincode.decode, rustc_and_bincode.encode, bincodeSerdeDeserializeR,
      bc_read_encode d h, Except.toOption]

/-- Witness for the amended C6 at the concrete small sample document. -/
theorem claim_c6_amended_witness :
    (DocumentOk sampleSmall ∧ sampleSmall.id < 160 * 2 ^ 56) ∧
      (rustc_and_bincode.decode (serde_and_bincode.encode sampleSmall) = some sampleSmall ∧
        serde_and_bincode.decode (rustc_and_bincode.encode sampleSmall) = some sampleSmall ∧
        rustc_and_cbor.decode (serde_and_bincode.encode sampleSmall) = none ∧
        rustc_and_cbor.decode (rustc_and_bincode.encode sampleSmall) = none ∧
        serde_and_bincode.decode (rustc_and_cbor.encode sampleSmall) ≠ some sampleSmall ∧
        rustc_and_bincode.decode (rustc_and_cbor.encode sampleSmall) ≠ some sampleSmall) :=
  ⟨⟨by decide, by decide⟩, claim_c6_amended sampleSmall (by decide) (by decide)⟩

/-- Claim C7: every decode benchmark encodes the sample document exactly
once during the untimed setup; every timed iteration decodes the same
shared byte sequence, produces the same result, and performs no encode
operation. -/
theorem claim_c7_bench_decode (o : BenchOption) (size : Nat) (rng : Nat → Nat) :
    (bench_decode o size rng).setupOps = [CodecOp.enc o] ∧
      (∀ n, (bench_decode o size rng).iter n =
        (adapterDecode o (adapterEncode o (make_sample_data size rng)), [CodecOp.dec o])) ∧
      ∀ k n, CodecOp.enc k ∉ ((bench_decode o size rng).iter n).2 := by
  cases o <;>
    simp [bench_decode, tracedEncode, tracedDecode, adapterEncode, adapterDecode]

/-- Claim C8: for each adapter the size driver performs exactly one encode
per sample document, in order, reports exactly the two encoded byte
lengths, performs no decode at all, and the sizes test is the three
per-adapter runs on the same two unchanged documents: its trace is exactly
the six encode operations. -/
theorem claim_c8_run_sizes (o : BenchOption) (small big : Document) :
    run_sizes o small big =
        ([(adapterEncode o small).length, (adapterEncode o big).length],
          [CodecOp.enc o, CodecOp.enc o]) ∧
      (∀ k, CodecOp.dec k ∉ (run_sizes o small big).2) ∧
      ∀ rng rngBig : Nat → Nat, (sizes rng rngBig).2 =
        [CodecOp.enc .rustcAndCbor, CodecOp.enc .rustcAndCbor,
          CodecOp.enc .serdeAndBincode, CodecOp.enc .serdeAndBincode,
          CodecOp.enc .rustcAndBincode, CodecOp.enc .rustcAndBincode] := by
  refine ⟨?he, ?hd, ?hs⟩
  · cases o <;> simp [run_sizes, tracedEncode, adapterEncode]
  · cases o <;> simp [run_sizes, tracedEncode]
  · intro rng rngBig
    simp [sizes, run_sizes, tracedEncode]

/-- Claim C9: the CBOR adapter decode of the empty byte sequence panics
(modelled as `none`): the item iterator yields nothing and the unwrap
fails, so no value is returned. -/
theorem claim_c9_empty_input :
    rustc_and_cbor.decode ([] : List Nat) = none := by
  decide

/-- Claim C10: the sample generator at requested length 0 is deterministic:
any two random sources produce structurally equal documents, the random
source being consulted zero times for an empty content buffer. -/
theorem claim_c10_deterministic (rng rngB : Nat → Nat) :
    make_sample_data 0 rng = make_sample_data 0 rngB := by
  simp [make_sample_data]

end SerEval
